import Mathlib

/-!
Verification of the sled-ordered key codec for `DatabaseLookupKey`
(`src/common/meta/raft-store/src/state_machine/database_lookup.rs`).

Modelling conventions:
* a byte is a `Nat` (values produced by the encoders are `< 256`);
* a Rust `Uuid` (128-bit tenant id) is a `Nat` together with the bound
  `tenant_id < 2 ^ 128` where a claim needs it;
* a Rust `String` is its sequence of Unicode scalar values, a `List Nat`
  whose members satisfy `IsScalarValue`;
* a Rust `Result<T, ErrorCode>` is `Except ErrorCode T`, and the fallible
  byte readers return `Option` (the caller `de` maps every failure to the
  single `MetaStoreDamaged` value, as the source does).

The codec primitives (`write_binary`, `write_scalar`, `write_string`,
`read_uuid`, `read_string`, cursor `advance`) live in the repository's
`common_io` / cursor layers, which are not part of the sources at hand;
they are modelled from the spec, as their doc comments record.
-/

/-- Unicode scalar values: code points minus the surrogate range, the values a
Rust `char` can carry. -/
def IsScalarValue (n : Nat) : Prop :=
  n < 0xD800 ∨ (0xE000 ≤ n ∧ n < 0x110000)

instance (n : Nat) : Decidable (IsScalarValue n) := by
  unfold IsScalarValue
  exact inferInstance

/-- Big-endian fixed-width byte string of a natural number: `beBytes w v` is
`w` bytes, most significant first. -/
def beBytes : Nat → Nat → List Nat
  | 0, _ => []
  | w + 1, v => (v / 256 ^ w) % 256 :: beBytes w v

/-- Value of a byte string read back as a big-endian natural number. -/
def beVal (l : List Nat) : Nat :=
  l.foldl (fun acc b => acc * 256 + b) 0

/-- Modelled from the spec: the variable-length unsigned length prefix written
by `common_io`'s `write_uvarint` (LEB128: seven value bits per byte, least
significant group first, high bit set on every byte but the last). -/
def writeUvarint (n : Nat) : List Nat :=
  if _h : n < 128 then [n] else (n % 128 + 128) :: writeUvarint (n / 128)
termination_by n
decreasing_by
  simp_wf
  omega

/-- Modelled from the spec: `common_io`'s `read_uvarint`, the inverse reader of
`writeUvarint`; fails on an empty or truncated varint. -/
def readUvarint : List Nat → Option (Nat × List Nat)
  | [] => none
  | b :: rest =>
    if b < 128 then some (b, rest)
    else
      match readUvarint rest with
      | some (v, r) => some (b % 128 + 128 * v, r)
      | none => none

/-- UTF-8 encoding of one Unicode scalar value (1 to 4 bytes). -/
def utf8EncodeChar (c : Nat) : List Nat :=
  if c < 0x80 then [c]
  else if c < 0x800 then [0xC0 + c / 64, 0x80 + c % 64]
  else if c < 0x10000 then [0xE0 + c / 4096, 0x80 + c / 64 % 64, 0x80 + c % 64]
  else [0xF0 + c / 262144, 0x80 + c / 4096 % 64, 0x80 + c / 64 % 64, 0x80 + c % 64]

/-- UTF-8 encoding of a scalar-value sequence. -/
def utf8Encode : List Nat → List Nat
  | [] => []
  | c :: s => utf8EncodeChar c ++ utf8Encode s

/-- Strict UTF-8 decoding of one leading scalar value (rejects truncation,
bad continuation bytes, overlong forms, surrogates and out-of-range values);
returns the scalar and the remaining bytes. -/
def utf8DecodeChar? : List Nat → Option (Nat × List Nat)
  | [] => none
  | b0 :: rest =>
    if b0 < 0x80 then some (b0, rest)
    else if b0 < 0xC2 then none
    else if b0 < 0xE0 then
      match rest with
      | [] => none
      | b1 :: r =>
        if b1 / 64 = 2 then some ((b0 - 0xC0) * 64 + (b1 - 0x80), r) else none
    else if b0 < 0xF0 then
      match rest with
      | b1 :: b2 :: r =>
        if b1 / 64 = 2 ∧ b2 / 64 = 2 ∧
            0x800 ≤ (b0 - 0xE0) * 4096 + (b1 - 0x80) * 64 + (b2 - 0x80) ∧
            IsScalarValue ((b0 - 0xE0) * 4096 + (b1 - 0x80) * 64 + (b2 - 0x80)) then
          some ((b0 - 0xE0) * 4096 + (b1 - 0x80) * 64 + (b2 - 0x80), r)
        else none
      | _ => none
    else if b0 < 0xF8 then
      match rest with
      | b1 :: b2 :: b3 :: r =>
        if b1 / 64 = 2 ∧ b2 / 64 = 2 ∧ b3 / 64 = 2 ∧
            0x10000 ≤ (b0 - 0xF0) * 262144 + (b1 - 0x80) * 4096 + (b2 - 0x80) * 64 + (b3 - 0x80) ∧
            (b0 - 0xF0) * 262144 + (b1 - 0x80) * 4096 + (b2 - 0x80) * 64 + (b3 - 0x80) < 0x110000 then
          some ((b0 - 0xF0) * 262144 + (b1 - 0x80) * 4096 + (b2 - 0x80) * 64 + (b3 - 0x80), r)
        else none
      | _ => none
    else none

theorem utf8DecodeChar?_length {l : List Nat} {c : Nat} {r : List Nat}
    (h : utf8DecodeChar? l = some (c, r)) : r.length < l.length := by
  cases l with
  | nil => simp [utf8DecodeChar?] at h
  | cons b0 rest =>
    cases rest with
    | nil =>
      simp only [utf8DecodeChar?] at h
      split_ifs at h <;> simp_all
    | cons b1 rest1 =>
      cases rest1 with
      | nil =>
        simp only [utf8DecodeChar?] at h
        split_ifs at h <;> simp_all <;> omega
      | cons b2 rest2 =>
        cases rest2 with
        | nil =>
          simp only [utf8DecodeChar?] at h
          split_ifs at h <;> simp_all <;> omega
        | cons b3 rest3 =>
          simp only [utf8DecodeChar?] at h
          split_ifs at h <;> simp_all <;> omega

/-- Strict UTF-8 decoding of a whole byte string, as performed by
`String::from_utf8` validation when `read_string` rebuilds the name. -/
def utf8Decode (l : List Nat) : Option (List Nat) :=
  match l with
  | [] => some []
  | b0 :: rest =>
    match h : utf8DecodeChar? (b0 :: rest) with
    | some (c, r) => (utf8Decode r).map (c :: ·)
    | none => none
termination_by l.length
decreasing_by
  exact utf8DecodeChar?_length h

/-- Error type: the slice of `common_exception::ErrorCode` the codec uses. -/
inductive ErrorCode : Type where
  | MetaStoreDamaged (msg : String) : ErrorCode
deriving DecidableEq

/-- Message carried by every codec failure in `database_lookup.rs`. -/
def invalidKeyIVec : String := "invalid key IVec"

/-- Delimiter constant `DB_LOOKUP_KEY_DELIMITER` from the source (a whale). -/
def DB_LOOKUP_KEY_DELIMITER : Char := '🐋'

/-- The key struct of `database_lookup.rs`: tenant id (`Uuid`, 128-bit),
delimiter (`char`) and database name (`String`, modelled as its scalar
values). Lean's structural equality mirrors the derived `PartialEq`, which
compares all three fields. -/
structure DatabaseLookupKey : Type where
  tenant_id : Nat
  delimiter : Char
  database_name : List Nat
deriving DecidableEq

/-- Constructor `DatabaseLookupKey::new`: fixes the delimiter internally. -/
def DatabaseLookupKey.new (tenant_id : Nat) (database_name : List Nat) : DatabaseLookupKey :=
  { tenant_id := tenant_id
    delimiter := DB_LOOKUP_KEY_DELIMITER
    database_name := database_name }

/-- Modelled from the spec: `BinaryWriteBuf::write_binary` for a `Uuid`
appends its 16 bytes in big-endian order to the in-memory buffer; writing to
a growable buffer cannot fail. -/
def write_binary (buf : List Nat) (tenant_id : Nat) : Except ErrorCode (List Nat) :=
  Except.ok (buf ++ beBytes 16 tenant_id)

/-- Modelled from the spec: `write_scalar` for a `char` appends the 4 fixed
bytes of its code point; writing to a growable buffer cannot fail. -/
def write_scalar (buf : List Nat) (c : Char) : Except ErrorCode (List Nat) :=
  Except.ok (buf ++ beBytes 4 c.toNat)

/-- Modelled from the spec: `write_string` appends the variable-length
unsigned length prefix holding the name's byte length, then the UTF-8 bytes;
writing to a growable buffer cannot fail. -/
def write_string (buf : List Nat) (s : List Nat) : Except ErrorCode (List Nat) :=
  Except.ok (buf ++ (writeUvarint (utf8Encode s).length ++ utf8Encode s))

/-- Modelled from the spec: `read_uuid` consumes 16 bytes and rebuilds the
128-bit id, failing when fewer than 16 bytes remain. -/
def read_uuid (buf : List Nat) : Option (Nat × List Nat) :=
  if 16 ≤ buf.length then some (beVal (buf.take 16), buf.drop 16) else none

/-- Modelled from the spec: the cursor `advance`, which moves past exactly
`n` bytes without reading them. -/
def advance (buf : List Nat) (n : Nat) : List Nat :=
  buf.drop n

/-- Modelled from the spec: `read_string` reads the length prefix, requires
that many bytes to remain, and validates them as UTF-8. -/
def read_string (buf : List Nat) : Option (List Nat × List Nat) :=
  match readUvarint buf with
  | some (len, r) =>
    if len ≤ r.length then
      match utf8Decode (r.take len) with
      | some s => some (s, r.drop len)
      | none => none
    else none
  | none => none

/-- `SledOrderedSerde::ser` for `DatabaseLookupKey`, mirroring the source:
write the tenant id, the delimiter and the name in sequence, and fall back to
the `MetaStoreDamaged` error if any write reports failure. -/
def DatabaseLookupKey.ser (k : DatabaseLookupKey) : Except ErrorCode (List Nat) :=
  match write_binary [] k.tenant_id with
  | Except.ok buf1 =>
    match write_scalar buf1 k.delimiter with
    | Except.ok buf2 =>
      match write_string buf2 k.database_name with
      | Except.ok buf3 => Except.ok buf3
      | Except.error _ => Except.error (ErrorCode.MetaStoreDamaged invalidKeyIVec)
    | Except.error _ => Except.error (ErrorCode.MetaStoreDamaged invalidKeyIVec)
  | Except.error _ => Except.error (ErrorCode.MetaStoreDamaged invalidKeyIVec)

/-- `SledOrderedSerde::de` for `DatabaseLookupKey`, mirroring the source:
read the uuid, skip 4 delimiter bytes without validating them, read the
name, and rebuild the key with the constant delimiter; any reader failure
becomes the `MetaStoreDamaged` error. -/
def DatabaseLookupKey.de (v : List Nat) : Except ErrorCode DatabaseLookupKey :=
  match read_uuid v with
  | some (tenant_id, rest) =>
    match read_string (advance rest 4) with
    | some (database_name, _) =>
      Except.ok
        { tenant_id := tenant_id
          delimiter := DB_LOOKUP_KEY_DELIMITER
          database_name := database_name }
    | none => Except.error (ErrorCode.MetaStoreDamaged invalidKeyIVec)
  | none => Except.error (ErrorCode.MetaStoreDamaged invalidKeyIVec)

/-! ### Big-endian fixed-width encoding lemmas -/

theorem beBytes_length (w v : Nat) : (beBytes w v).length = w := by
  induction w generalizing v with
  | zero => rfl
  | succ w ih => simp [beBytes, ih]

theorem beBytes_foldl (w v a : Nat) :
    List.foldl (fun acc b => acc * 256 + b) a (beBytes w v) = a * 256 ^ w + v % 256 ^ w := by
  induction w generalizing a with
  | zero => simp [beBytes, Nat.mod_one]
  | succ w ih =>
    rw [beBytes, List.foldl_cons, ih]
    have hm : v % 256 ^ (w + 1) = v % 256 ^ w + 256 ^ w * (v / 256 ^ w % 256) := by
      rw [pow_succ, Nat.mod_mul]
    rw [hm, pow_succ]
    ring

theorem beVal_beBytes (w v : Nat) (h : v < 256 ^ w) : beVal (beBytes w v) = v := by
  unfold beVal
  rw [beBytes_foldl]
  simp [Nat.mod_eq_of_lt h]

theorem beBytes_injOn (w v1 v2 : Nat) (h1 : v1 < 256 ^ w) (h2 : v2 < 256 ^ w)
    (h : beBytes w v1 = beBytes w v2) : v1 = v2 := by
  have := beVal_beBytes w v1 h1
  rw [h, beVal_beBytes w v2 h2] at this
  exact this.symm

/-! ### Varint length-prefix lemmas -/

theorem readUvarint_writeUvarint (n : Nat) (rest : List Nat) :
    readUvarint (writeUvarint n ++ rest) = some (n, rest) := by
  induction n using Nat.strong_induction_on with
  | _ n ih =>
    rw [writeUvarint]
    by_cases h : n < 128
    · simp [h, readUvarint]
    · have hb : ¬ (n % 128 + 128 < 128) := by omega
      have hdiv : n / 128 < n := by omega
      simp only [h, dif_neg, not_false_iff, List.cons_append]
      rw [readUvarint]
      simp only [hb, if_false, ih (n / 128) hdiv]
      have : n % 128 + 128 * (n / 128) = n := by omega
      simp [Nat.add_mod_left, this]

theorem readUvarint_take_writeUvarint (n j : Nat) (h : j < (writeUvarint n).length) :
    readUvarint (List.take j (writeUvarint n)) = none := by
  induction n using Nat.strong_induction_on generalizing j with
  | _ n ih =>
    rw [writeUvarint] at h ⊢
    by_cases hn : n < 128
    · simp [hn] at h
      have hj : j = 0 := by omega
      subst hj
      simp [readUvarint]
    · have hdiv : n / 128 < n := by omega
      simp only [hn, dif_neg, not_false_iff, List.length_cons] at h ⊢
      match j with
      | 0 => simp [readUvarint]
      | j + 1 =>
        rw [List.take_succ_cons]
        rw [readUvarint]
        have hb : ¬ (n % 128 + 128 < 128) := by omega
        simp only [hb, if_false]
        rw [ih (n / 128) hdiv j (by omega)]

/-! ### UTF-8 lemmas -/

theorem utf8EncodeChar_ne_nil (c : Nat) : utf8EncodeChar c ≠ [] := by
  unfold utf8EncodeChar
  split_ifs <;> simp

theorem utf8DecodeChar?_encodeChar (c : Nat) (hc : IsScalarValue c) (s : List Nat) :
    utf8DecodeChar? (utf8EncodeChar c ++ s) = some (c, s) := by
  unfold utf8EncodeChar
  by_cases h1 : c < 0x80
  · rw [if_pos h1]
    simp only [List.cons_append, List.nil_append, utf8DecodeChar?, if_pos h1]
  · by_cases h2 : c < 0x800
    · rw [if_neg h1, if_pos h2]
      have hA : ¬ (0xC0 + c / 64 < 0x80) := by omega
      have hB : ¬ (0xC0 + c / 64 < 0xC2) := by omega
      have hC : 0xC0 + c / 64 < 0xE0 := by omega
      have hD : (0x80 + c % 64) / 64 = 2 := by omega
      simp only [List.cons_append, List.nil_append, utf8DecodeChar?, if_neg hA, if_neg hB,
        if_pos hC, if_pos hD, Option.some.injEq, Prod.mk.injEq]
      exact ⟨by omega, trivial⟩
    · by_cases h3 : c < 0x10000
      · rw [if_neg h1, if_neg h2, if_pos h3]
        have hA : ¬ (0xE0 + c / 4096 < 0x80) := by omega
        have hB : ¬ (0xE0 + c / 4096 < 0xC2) := by omega
        have hC : ¬ (0xE0 + c / 4096 < 0xE0) := by omega
        have hC2 : 0xE0 + c / 4096 < 0xF0 := by omega
        have hv : (0xE0 + c / 4096 - 0xE0) * 4096 + (0x80 + c / 64 % 64 - 0x80) * 64 +
            (0x80 + c % 64 - 0x80) = c := by omega
        have hcond : (0x80 + c / 64 % 64) / 64 = 2 ∧ (0x80 + c % 64) / 64 = 2 ∧
            0x800 ≤ (0xE0 + c / 4096 - 0xE0) * 4096 + (0x80 + c / 64 % 64 - 0x80) * 64 +
              (0x80 + c % 64 - 0x80) ∧
            IsScalarValue ((0xE0 + c / 4096 - 0xE0) * 4096 + (0x80 + c / 64 % 64 - 0x80) * 64 +
              (0x80 + c % 64 - 0x80)) := by
          refine ⟨by omega, by omega, by omega, ?_⟩
          rw [hv]
          exact hc
        simp only [List.cons_append, List.nil_append, utf8DecodeChar?, if_neg hA, if_neg hB,
          if_neg hC, if_pos hC2, if_pos hcond, Option.some.injEq, Prod.mk.injEq]
        exact ⟨by omega, trivial⟩
      · have hlt : c < 0x110000 := by
          rcases hc with h | ⟨_, h⟩
          · omega
          · exact h
        rw [if_neg h1, if_neg h2, if_neg h3]
        have hA : ¬ (0xF0 + c / 262144 < 0x80) := by omega
        have hB : ¬ (0xF0 + c / 262144 < 0xC2) := by omega
        have hC : ¬ (0xF0 + c / 262144 < 0xE0) := by omega
        have hC2 : ¬ (0xF0 + c / 262144 < 0xF0) := by omega
        have hC3 : 0xF0 + c / 262144 < 0xF8 := by omega
        have hv : (0xF0 + c / 262144 - 0xF0) * 262144 + (0x80 + c / 4096 % 64 - 0x80) * 4096 +
            (0x80 + c / 64 % 64 - 0x80) * 64 + (0x80 + c % 64 - 0x80) = c := by omega
        have hcond : (0x80 + c / 4096 % 64) / 64 = 2 ∧ (0x80 + c / 64 % 64) / 64 = 2 ∧
            (0x80 + c % 64) / 64 = 2 ∧
            0x10000 ≤ (0xF0 + c / 262144 - 0xF0) * 262144 + (0x80 + c / 4096 % 64 - 0x80) * 4096 +
              (0x80 + c / 64 % 64 - 0x80) * 64 + (0x80 + c % 64 - 0x80) ∧
            (0xF0 + c / 262144 - 0xF0) * 262144 + (0x80 + c / 4096 % 64 - 0x80) * 4096 +
              (0x80 + c / 64 % 64 - 0x80) * 64 + (0x80 + c % 64 - 0x80) < 0x110000 := by
          exact ⟨by omega, by omega, by omega, by omega, by omega⟩
        simp only [List.cons_append, List.nil_append, utf8DecodeChar?, if_neg hA, if_neg hB,
          if_neg hC, if_neg hC2, if_pos hC3, if_pos hcond, Option.some.injEq, Prod.mk.injEq]
        exact ⟨by omega, trivial⟩

theorem utf8Decode_of_char {l : List Nat} {c : Nat} {r : List Nat}
    (h : utf8DecodeChar? l = some (c, r)) : utf8Decode l = (utf8Decode r).map (c :: ·) := by
  cases l with
  | nil => simp [utf8DecodeChar?] at h
  | cons b0 rest =>
    rw [utf8Decode]
    split
    · rename_i c2 r2 heq
      rw [h] at heq
      simp only [Option.some.injEq, Prod.mk.injEq] at heq
      obtain ⟨rfl, rfl⟩ := heq
      rfl
    · rename_i heq
      rw [h] at heq
      simp at heq

theorem utf8Decode_encode (s : List Nat) (hs : ∀ c ∈ s, IsScalarValue c) :
    utf8Decode (utf8Encode s) = some s := by
  induction s with
  | nil => simp [utf8Encode, utf8Decode]
  | cons c s ih =>
    rw [utf8Encode,
      utf8Decode_of_char (utf8DecodeChar?_encodeChar c (hs c (by simp)) (utf8Encode s)),
      ih (fun d hd => hs d (by simp [hd]))]
    rfl

/-! ### Serialisation shape and decode composition -/

theorem ser_eq (k : DatabaseLookupKey) :
    k.ser = Except.ok (beBytes 16 k.tenant_id ++ (beBytes 4 k.delimiter.toNat ++
      (writeUvarint (utf8Encode k.database_name).length ++ utf8Encode k.database_name))) := by
  unfold DatabaseLookupKey.ser write_binary write_scalar write_string
  simp [List.append_assoc]

theorem read_string_encode (s : List Nat) (hs : ∀ c ∈ s, IsScalarValue c) :
    read_string (writeUvarint (utf8Encode s).length ++ utf8Encode s) = some (s, []) := by
  unfold read_string
  rw [readUvarint_writeUvarint]
  simp only [le_refl, if_true, List.take_length, List.drop_length]
  rw [utf8Decode_encode s hs]

theorem pow_256_16 : (256 : Nat) ^ 16 = 2 ^ 128 := by
  norm_num

theorem de_of_layout (t : Nat) (n : List Nat) (d : List Nat) (ht : t < 2 ^ 128)
    (hn : ∀ c ∈ n, IsScalarValue c) (hd : d.length = 4) :
    DatabaseLookupKey.de
        (beBytes 16 t ++ (d ++ (writeUvarint (utf8Encode n).length ++ utf8Encode n))) =
      Except.ok (DatabaseLookupKey.new t n) := by
  unfold DatabaseLookupKey.de read_uuid advance
  have hlen : 16 ≤ (beBytes 16 t ++ (d ++ (writeUvarint (utf8Encode n).length ++
      utf8Encode n))).length := by
    simp [beBytes_length]
  rw [if_pos hlen]
  rw [List.take_left' (beBytes_length 16 t), List.drop_left' (beBytes_length 16 t)]
  dsimp only
  rw [List.drop_left' hd]
  rw [read_string_encode n hn]
  rw [beVal_beBytes 16 t (by rw [pow_256_16]; exact ht)]
  rfl

/-! ### Claim theorems: round-trip, layout, delimiter handling, totality -/

/-- C1: for every key built by `DatabaseLookupKey.new tenant_id name` — any
128-bit tenant id and any name over Unicode scalar values (multi-byte
characters, the delimiter character and the empty name included) —
deserialising the serialised bytes succeeds and returns the key itself. -/
theorem ser_de_roundtrip (t : Nat) (n : List Nat) (ht : t < 2 ^ 128)
    (hn : ∀ c ∈ n, IsScalarValue c) (bytes : List Nat)
    (hser : (DatabaseLookupKey.new t n).ser = Except.ok bytes) :
    DatabaseLookupKey.de bytes = Except.ok (DatabaseLookupKey.new t n) := by
  rw [ser_eq] at hser
  simp only [DatabaseLookupKey.new, Except.ok.injEq] at hser
  rw [← hser]
  exact de_of_layout t n _ ht hn (beBytes_length 4 _)

/-- C1 witness: concrete round-trip for tenant 5 and the name "a🐋中"
(an ASCII scalar, the delimiter scalar itself, and a three-byte scalar). -/
theorem ser_de_roundtrip_witness :
    DatabaseLookupKey.de (beBytes 16 5 ++ (beBytes 4 DB_LOOKUP_KEY_DELIMITER.toNat ++
      (writeUvarint (utf8Encode [97, 128011, 19501]).length ++ utf8Encode [97, 128011, 19501]))) =
      Except.ok (DatabaseLookupKey.new 5 [97, 128011, 19501]) :=
  ser_de_roundtrip 5 [97, 128011, 19501] (by norm_num) (by decide) _ (by rw [ser_eq]; rfl)

/-- C4: `de` skips the 4 delimiter bytes without validating them — replacing
bytes 16..20 of a serialised key by any 4 bytes leaves decoding successful
and unchanged, and the decoded key's delimiter is the constant whale. -/
theorem de_ignores_delimiter_bytes (t : Nat) (n : List Nat) (d : List Nat) (bytes : List Nat)
    (ht : t < 2 ^ 128) (hn : ∀ c ∈ n, IsScalarValue c) (hd : d.length = 4)
    (hser : (DatabaseLookupKey.new t n).ser = Except.ok bytes) :
    DatabaseLookupKey.de (bytes.take 16 ++ (d ++ bytes.drop 20)) =
        Except.ok (DatabaseLookupKey.new t n) ∧
      (DatabaseLookupKey.new t n).delimiter = DB_LOOKUP_KEY_DELIMITER := by
  rw [ser_eq] at hser
  simp only [DatabaseLookupKey.new, Except.ok.injEq] at hser
  subst hser
  constructor
  · have htake :
        (beBytes 16 t ++ (beBytes 4 DB_LOOKUP_KEY_DELIMITER.toNat ++
          (writeUvarint (utf8Encode n).length ++ utf8Encode n))).take 16 = beBytes 16 t :=
      List.take_left' (beBytes_length 16 t)
    have hdrop :
        (beBytes 16 t ++ (beBytes 4 DB_LOOKUP_KEY_DELIMITER.toNat ++
          (writeUvarint (utf8Encode n).length ++ utf8Encode n))).drop 20 =
          writeUvarint (utf8Encode n).length ++ utf8Encode n := by
      rw [← List.append_assoc]
      exact List.drop_left' (by simp [beBytes_length])
    rw [htake, hdrop]
    exact de_of_layout t n d ht hn hd
  · rfl

/-- C4 witness: replacing the delimiter field of a concrete serialised key by
the bytes 0,1,2,3 still decodes to the original key. -/
theorem de_ignores_delimiter_bytes_witness :
    DatabaseLookupKey.de
        (((DatabaseLookupKey.new 7 [98]).ser.toOption.getD []).take 16 ++
          ([0, 1, 2, 3] ++ ((DatabaseLookupKey.new 7 [98]).ser.toOption.getD []).drop 20)) =
        Except.ok (DatabaseLookupKey.new 7 [98]) ∧
      (DatabaseLookupKey.new 7 [98]).delimiter = DB_LOOKUP_KEY_DELIMITER :=
  de_ignores_delimiter_bytes 7 [98] [0, 1, 2, 3] _ (by norm_num) (by decide) (by decide)
    (by rw [ser_eq]; rfl)

/-- C5: the serialised form of every key built by `new` is exactly 16 bytes
of the tenant id in big-endian, then 4 bytes encoding the delimiter's code
point `128011`, then the variable-length unsigned prefix holding the name's
byte length, then the UTF-8 bytes of the name, and nothing else. -/
theorem ser_layout (t : Nat) (n : List Nat) :
    (DatabaseLookupKey.new t n).ser =
        Except.ok (beBytes 16 t ++ (beBytes 4 128011 ++
          (writeUvarint (utf8Encode n).length ++ utf8Encode n))) ∧
      (beBytes 16 t).length = 16 ∧ (beBytes 4 128011).length = 4 ∧
      DB_LOOKUP_KEY_DELIMITER.toNat = 128011 := by
  refine ⟨?_, beBytes_length 16 t, beBytes_length 4 128011, rfl⟩
  rw [ser_eq]
  rfl

/-- C6: whenever reading the tenant id or reading the name fails, `de`
surfaces exactly the typed `MetaStoreDamaged` error. -/
theorem de_error_is_meta_store_damaged (v : List Nat)
    (hfail : read_uuid v = none ∨
      ∃ t r, read_uuid v = some (t, r) ∧ read_string (advance r 4) = none) :
    DatabaseLookupKey.de v = Except.error (ErrorCode.MetaStoreDamaged invalidKeyIVec) := by
  unfold DatabaseLookupKey.de
  rcases hfail with h | ⟨t, r, h1, h2⟩
  · rw [h]
  · rw [h1]
    dsimp only
    rw [h2]

/-- C6 witness: the empty buffer fails the tenant-id read and yields the
`MetaStoreDamaged` error. -/
theorem de_error_is_meta_store_damaged_witness :
    DatabaseLookupKey.de [] = Except.error (ErrorCode.MetaStoreDamaged invalidKeyIVec) :=
  de_error_is_meta_store_damaged [] (Or.inl (by decide))

/-- C7: serialised keys of distinct 128-bit tenants never share the 16-byte
tenant prefix: the first key starts with its own tenant's 16 bytes, and the
second key's first 16 bytes differ from them. -/
theorem ser_tenant_prefix_isolation (t1 t2 : Nat) (a b : List Nat)
    (h1 : t1 < 2 ^ 128) (h2 : t2 < 2 ^ 128) (hne : t1 ≠ t2)
    (bytes1 bytes2 : List Nat)
    (hs1 : (DatabaseLookupKey.new t1 a).ser = Except.ok bytes1)
    (hs2 : (DatabaseLookupKey.new t2 b).ser = Except.ok bytes2) :
    bytes1.take 16 = beBytes 16 t1 ∧ bytes2.take 16 ≠ beBytes 16 t1 := by
  rw [ser_eq] at hs1 hs2
  simp only [DatabaseLookupKey.new, Except.ok.injEq] at hs1 hs2
  subst hs1
  subst hs2
  refine ⟨List.take_left' (beBytes_length 16 t1), ?_⟩
  rw [List.take_left' (beBytes_length 16 t2)]
  intro hEq
  exact hne (beBytes_injOn 16 t2 t1 (by rw [pow_256_16]; exact h2)
    (by rw [pow_256_16]; exact h1) hEq).symm

/-- C7 witness: tenants 0 and 1 (differing in a single bit) have distinct
16-byte prefixes on their serialised keys. -/
theorem ser_tenant_prefix_isolation_witness :
    (beBytes 16 0 ++ (beBytes 4 DB_LOOKUP_KEY_DELIMITER.toNat ++
        (writeUvarint (utf8Encode []).length ++ utf8Encode []))).take 16 = beBytes 16 0 ∧
      (beBytes 16 1 ++ (beBytes 4 DB_LOOKUP_KEY_DELIMITER.toNat ++
        (writeUvarint (utf8Encode []).length ++ utf8Encode []))).take 16 ≠ beBytes 16 0 :=
  ser_tenant_prefix_isolation 0 1 [] [] (by norm_num) (by norm_num) (by norm_num) _ _
    (by rw [ser_eq]; rfl) (by rw [ser_eq]; rfl)

/-- C8: every key reachable through the public construction paths — `new`,
or a successful `de` — carries the reserved constant delimiter. -/
theorem delimiter_invariant (k : DatabaseLookupKey)
    (h : (∃ t n, k = DatabaseLookupKey.new t n) ∨
      ∃ v, DatabaseLookupKey.de v = Except.ok k) :
    k.delimiter = DB_LOOKUP_KEY_DELIMITER := by
  rcases h with ⟨t, n, rfl⟩ | ⟨v, hv⟩
  · rfl
  · unfold DatabaseLookupKey.de at hv
    cases hu : read_uuid v with
    | none =>
      rw [hu] at hv
      simp at hv
    | some p =>
      obtain ⟨t, r⟩ := p
      rw [hu] at hv
      dsimp only at hv
      cases hrs : read_string (advance r 4) with
      | none =>
        rw [hrs] at hv
        simp at hv
      | some q =>
        obtain ⟨name, leftover⟩ := q
        rw [hrs] at hv
        dsimp only at hv
        simp only [Except.ok.injEq] at hv
        rw [← hv]

/-- C8 witness: the key `new 0 []` carries the constant delimiter. -/
theorem delimiter_invariant_witness :
    (DatabaseLookupKey.new 0 []).delimiter = DB_LOOKUP_KEY_DELIMITER :=
  delimiter_invariant (DatabaseLookupKey.new 0 []) (Or.inl ⟨0, [], rfl⟩)

/-- C10: serialisation is total — `ser` returns `Ok` on every key, so the
`MetaStoreDamaged` fallback in `ser` is unreachable. -/
theorem ser_total (k : DatabaseLookupKey) : ∃ bytes, k.ser = Except.ok bytes :=
  ⟨_, ser_eq k⟩

/-! ### Truncated buffers -/

theorem read_string_take_encode (E : List Nat) (j : Nat)
    (hj : j < (writeUvarint E.length).length + E.length) :
    read_string ((writeUvarint E.length ++ E).take j) = none := by
  by_cases hjU : j < (writeUvarint E.length).length
  · rw [List.take_append_eq_append_take, show j - (writeUvarint E.length).length = 0 by omega]
    simp only [List.take_zero, List.append_nil]
    unfold read_string
    rw [readUvarint_take_writeUvarint E.length j hjU]
  · push_neg at hjU
    rw [List.take_append_eq_append_take, List.take_of_length_le hjU]
    unfold read_string
    rw [readUvarint_writeUvarint]
    dsimp only
    have hlen2 : (E.take (j - (writeUvarint E.length).length)).length =
        j - (writeUvarint E.length).length := by
      rw [List.length_take]
      omega
    rw [if_neg (by rw [hlen2]; omega)]

/-- C3: decoding any strict prefix of a serialised key fails with the decode
error — never with a successful, wrong-but-valid key (`de` is a total
function into `Except`, so no other outcome is possible). -/
theorem de_strict_prefix_error (t : Nat) (n : List Nat) (bytes : List Nat)
    (hser : (DatabaseLookupKey.new t n).ser = Except.ok bytes)
    (i : Nat) (hi : i < bytes.length) :
    DatabaseLookupKey.de (bytes.take i) =
      Except.error (ErrorCode.MetaStoreDamaged invalidKeyIVec) := by
  rw [ser_eq] at hser
  simp only [DatabaseLookupKey.new, Except.ok.injEq] at hser
  subst hser
  have hAlen : (beBytes 16 t).length = 16 := beBytes_length 16 t
  have hBlen : (beBytes 4 DB_LOOKUP_KEY_DELIMITER.toNat).length = 4 := beBytes_length 4 _
  rw [List.length_append, List.length_append, List.length_append, hAlen, hBlen] at hi
  unfold DatabaseLookupKey.de read_uuid advance
  by_cases h16 : i < 16
  · have hlen0 : ((beBytes 16 t ++ (beBytes 4 DB_LOOKUP_KEY_DELIMITER.toNat ++
        (writeUvarint (utf8Encode n).length ++ utf8Encode n))).take i).length = i := by
      rw [List.length_take, List.length_append, hAlen]
      omega
    rw [if_neg (by rw [hlen0]; omega)]
  · push_neg at h16
    rw [List.take_append_eq_append_take, List.take_of_length_le (by rw [hAlen]; exact h16), hAlen]
    rw [if_pos (by simp [hAlen])]
    rw [List.take_left' hAlen, List.drop_left' hAlen]
    dsimp only
    by_cases h20 : i < 20
    · have hsmall : ((beBytes 4 DB_LOOKUP_KEY_DELIMITER.toNat ++
          (writeUvarint (utf8Encode n).length ++ utf8Encode n)).take (i - 16)).length ≤ 4 := by
        rw [List.length_take]
        omega
      rw [List.drop_eq_nil_of_le hsmall]
      rfl
    · push_neg at h20
      have htake2 : (beBytes 4 DB_LOOKUP_KEY_DELIMITER.toNat ++
          (writeUvarint (utf8Encode n).length ++ utf8Encode n)).take (i - 16) =
          beBytes 4 DB_LOOKUP_KEY_DELIMITER.toNat ++
            (writeUvarint (utf8Encode n).length ++ utf8Encode n).take (i - 20) := by
        rw [List.take_append_eq_append_take, List.take_of_length_le (by rw [hBlen]; omega), hBlen]
        congr 2
      rw [htake2, List.drop_left' hBlen]
      rw [read_string_take_encode (utf8Encode n) (i - 20) (by omega)]

/-- C3 witness: the 10-byte prefix of a concrete 22-byte serialised key fails
to decode. -/
theorem de_strict_prefix_error_witness :
    DatabaseLookupKey.de (((DatabaseLookupKey.new 3 [97]).ser.toOption.getD []).take 10) =
      Except.error (ErrorCode.MetaStoreDamaged invalidKeyIVec) :=
  de_strict_prefix_error 3 [97] _ (by rw [ser_eq]; rfl) 10
    (by rw [ser_eq]
        simp [DatabaseLookupKey.new, beBytes, writeUvarint, utf8Encode, utf8EncodeChar,
          Except.toOption, Option.getD])

/-! ### Byte-wise order versus scalar order -/

theorem lex_append_iff (p x y : List Nat) :
    List.Lex (· < ·) (p ++ x) (p ++ y) ↔ List.Lex (· < ·) x y := by
  induction p with
  | nil => simp
  | cons a p ih =>
    simp only [List.cons_append]
    rw [List.Lex.cons_iff]
    exact ih

theorem utf8EncodeChar_lex (c d : Nat) (hc : IsScalarValue c) (hd : IsScalarValue d)
    (hcd : c < d) (r1 r2 : List Nat) :
    List.Lex (· < ·) (utf8EncodeChar c ++ r1) (utf8EncodeChar d ++ r2) := by
  unfold utf8EncodeChar
  rcases Nat.lt_or_ge c 0x80 with hc1 | hc1
  · rw [if_pos hc1]
    rcases Nat.lt_or_ge d 0x80 with hd1 | hd1
    · rw [if_pos hd1]
      simp only [List.cons_append, List.nil_append]
      exact List.Lex.rel hcd
    · rw [if_neg (by omega)]
      rcases Nat.lt_or_ge d 0x800 with hd2 | hd2
      · rw [if_pos hd2]
        simp only [List.cons_append, List.nil_append]
        exact List.Lex.rel (by omega)
      · rw [if_neg (by omega)]
        rcases Nat.lt_or_ge d 0x10000 with hd3 | hd3
        · rw [if_pos hd3]
          simp only [List.cons_append, List.nil_append]
          exact List.Lex.rel (by omega)
        · rw [if_neg (by omega)]
          simp only [List.cons_append, List.nil_append]
          exact List.Lex.rel (by omega)
  · rcases Nat.lt_or_ge c 0x800 with hc2 | hc2
    · rw [if_neg (by omega), if_pos hc2]
      rw [if_neg (show ¬ d < 0x80 by omega)]
      rcases Nat.lt_or_ge d 0x800 with hd2 | hd2
      · rw [if_pos hd2]
        simp only [List.cons_append, List.nil_append]
        rcases Nat.lt_or_ge (c / 64) (d / 64) with hdiv | hdiv
        · exact List.Lex.rel (by omega)
        · have heq : (0xC0 + c / 64 : Nat) = 0xC0 + d / 64 := by omega
          rw [heq]
          exact List.Lex.cons (List.Lex.rel (by omega))
      · rw [if_neg (by omega)]
        rcases Nat.lt_or_ge d 0x10000 with hd3 | hd3
        · rw [if_pos hd3]
          simp only [List.cons_append, List.nil_append]
          exact List.Lex.rel (by omega)
        · rw [if_neg (by omega)]
          simp only [List.cons_append, List.nil_append]
          exact List.Lex.rel (by omega)
    · rcases Nat.lt_or_ge c 0x10000 with hc3 | hc3
      · rw [if_neg (by omega), if_neg (by omega), if_pos hc3]
        rw [if_neg (show ¬ d < 0x80 by omega), if_neg (show ¬ d < 0x800 by omega)]
        rcases Nat.lt_or_ge d 0x10000 with hd3 | hd3
        · rw [if_pos hd3]
          simp only [List.cons_append, List.nil_append]
          rcases Nat.lt_or_ge (c / 4096) (d / 4096) with hdiv | hdiv
          · exact List.Lex.rel (by omega)
          · have heq1 : (0xE0 + c / 4096 : Nat) = 0xE0 + d / 4096 := by omega
            rw [heq1]
            rcases Nat.lt_or_ge (c / 64 % 64) (d / 64 % 64) with hdiv2 | hdiv2
            · exact List.Lex.cons (List.Lex.rel (by omega))
            · have heq2 : (0x80 + c / 64 % 64 : Nat) = 0x80 + d / 64 % 64 := by omega
              rw [heq2]
              exact List.Lex.cons (List.Lex.cons (List.Lex.rel (by omega)))
        · rw [if_neg (by omega)]
          simp only [List.cons_append, List.nil_append]
          exact List.Lex.rel (by omega)
      · have hdmax : d < 0x110000 := by
          rcases hd with h | ⟨_, h⟩
          · omega
          · exact h
        rw [if_neg (by omega), if_neg (by omega), if_neg (by omega)]
        rw [if_neg (show ¬ d < 0x80 by omega), if_neg (show ¬ d < 0x800 by omega),
          if_neg (show ¬ d < 0x10000 by omega)]
        simp only [List.cons_append, List.nil_append]
        rcases Nat.lt_or_ge (c / 262144) (d / 262144) with h1 | h1
        · exact List.Lex.rel (by omega)
        · have e1 : (0xF0 + c / 262144 : Nat) = 0xF0 + d / 262144 := by omega
          rw [e1]
          rcases Nat.lt_or_ge (c / 4096 % 64) (d / 4096 % 64) with h2 | h2
          · exact List.Lex.cons (List.Lex.rel (by omega))
          · have e2 : (0x80 + c / 4096 % 64 : Nat) = 0x80 + d / 4096 % 64 := by omega
            rw [e2]
            rcases Nat.lt_or_ge (c / 64 % 64) (d / 64 % 64) with h3 | h3
            · exact List.Lex.cons (List.Lex.cons (List.Lex.rel (by omega)))
            · have e3 : (0x80 + c / 64 % 64 : Nat) = 0x80 + d / 64 % 64 := by omega
              rw [e3]
              exact List.Lex.cons (List.Lex.cons (List.Lex.cons (List.Lex.rel (by omega))))

theorem utf8Encode_lex_forward {a b : List Nat} (h : List.Lex (· < ·) a b)
    (ha : ∀ c ∈ a, IsScalarValue c) (hb : ∀ c ∈ b, IsScalarValue c) :
    List.Lex (· < ·) (utf8Encode a) (utf8Encode b) := by
  induction h with
  | nil =>
    rename_i d l
    cases henc : utf8EncodeChar d with
    | nil => exact absurd henc (utf8EncodeChar_ne_nil d)
    | cons x xs =>
      rw [show utf8Encode (d :: l) = utf8EncodeChar d ++ utf8Encode l from rfl, henc,
        show utf8Encode ([] : List Nat) = [] from rfl]
      simp only [List.cons_append]
      exact List.Lex.nil
  | @rel c l1 d l2 hcd =>
    rw [utf8Encode, utf8Encode]
    exact utf8EncodeChar_lex c d (ha c (by simp)) (hb d (by simp)) hcd _ _
  | @cons x l1 l2 hlex ih =>
    rw [utf8Encode, utf8Encode]
    exact List.Lex.append_left _
      (ih (fun e he => ha e (List.mem_cons_of_mem _ he))
        (fun e he => hb e (List.mem_cons_of_mem _ he))) _

theorem utf8Encode_lex_iff (a b : List Nat) (ha : ∀ c ∈ a, IsScalarValue c)
    (hb : ∀ c ∈ b, IsScalarValue c) :
    List.Lex (· < ·) a b ↔ List.Lex (· < ·) (utf8Encode a) (utf8Encode b) := by
  refine ⟨fun h => utf8Encode_lex_forward h ha hb, fun h => ?_⟩
  rcases trichotomous_of (List.Lex ((· < ·) : Nat → Nat → Prop)) a b with h1 | h1 | h1
  · exact h1
  · subst h1
    exact absurd h (asymm h)
  · exact absurd (utf8Encode_lex_forward h1 hb ha) (asymm h)

/-- Serialised bytes of a key, unwrapped from the always-successful `ser`. -/
def serBytes (k : DatabaseLookupKey) : List Nat :=
  k.ser.toOption.getD []

theorem serBytes_eq (k : DatabaseLookupKey) :
    serBytes k = beBytes 16 k.tenant_id ++ (beBytes 4 k.delimiter.toNat ++
      (writeUvarint (utf8Encode k.database_name).length ++ utf8Encode k.database_name)) := by
  unfold serBytes
  rw [ser_eq]
  rfl

/-- C2 counterexample: under one tenant, the names "aa" and "b" satisfy
`"aa" < "b"` in scalar order, yet the serialised key of "aa" is byte-wise
greater than that of "b", because the length prefix is compared first. -/
theorem ser_order_preservation_counterexample :
    List.Lex (· < ·) [97, 97] [98] ∧
      ¬ List.Lex (· < ·) (serBytes (DatabaseLookupKey.new 0 [97, 97]))
        (serBytes (DatabaseLookupKey.new 0 [98])) := by
  refine ⟨List.Lex.rel (by norm_num), ?_⟩
  intro hLex
  have e1 : serBytes (DatabaseLookupKey.new 0 [97, 97]) =
      (beBytes 16 0 ++ beBytes 4 DB_LOOKUP_KEY_DELIMITER.toNat) ++ [2, 97, 97] := by
    rw [serBytes_eq]
    simp [DatabaseLookupKey.new, writeUvarint, utf8Encode, utf8EncodeChar]
  have e2 : serBytes (DatabaseLookupKey.new 0 [98]) =
      (beBytes 16 0 ++ beBytes 4 DB_LOOKUP_KEY_DELIMITER.toNat) ++ [1, 98] := by
    rw [serBytes_eq]
    simp [DatabaseLookupKey.new, writeUvarint, utf8Encode, utf8EncodeChar]
  rw [e1, e2, lex_append_iff] at hLex
  exact absurd hLex (by decide)

/-- C2, amended: for two names of equal UTF-8 byte length under the same
tenant, scalar-sequence order of the names agrees with unsigned byte-wise
order of the serialised keys. (The unamended claim fails when the byte
lengths differ, because the variable-length length prefix is compared before
the name bytes.) -/
theorem ser_order_preservation_same_length (t : Nat) (a b : List Nat)
    (ha : ∀ c ∈ a, IsScalarValue c) (hb : ∀ c ∈ b, IsScalarValue c)
    (hlen : (utf8Encode a).length = (utf8Encode b).length)
    (la lb : List Nat)
    (hsa : (DatabaseLookupKey.new t a).ser = Except.ok la)
    (hsb : (DatabaseLookupKey.new t b).ser = Except.ok lb) :
    List.Lex (· < ·) a b ↔ List.Lex (· < ·) la lb := by
  rw [ser_eq] at hsa hsb
  simp only [DatabaseLookupKey.new, Except.ok.injEq] at hsa hsb
  subst hsa
  subst hsb
  rw [hlen]
  have regroup : ∀ E : List Nat,
      beBytes 16 t ++ (beBytes 4 DB_LOOKUP_KEY_DELIMITER.toNat ++
        (writeUvarint (utf8Encode b).length ++ E)) =
      (beBytes 16 t ++ beBytes 4 DB_LOOKUP_KEY_DELIMITER.toNat ++
        writeUvarint (utf8Encode b).length) ++ E := by
    intro E
    simp [List.append_assoc]
  rw [regroup (utf8Encode a), regroup (utf8Encode b), lex_append_iff]
  exact utf8Encode_lex_iff a b ha hb

/-- C2 witness: for tenant 0 and the equal-byte-length names "a" and "b",
scalar order and serialised byte order agree. -/
theorem ser_order_preservation_same_length_witness :
    (List.Lex (· < ·) [97] [98] ↔
      List.Lex (· < ·)
        (beBytes 16 0 ++ (beBytes 4 DB_LOOKUP_KEY_DELIMITER.toNat ++
          (writeUvarint (utf8Encode [97]).length ++ utf8Encode [97])))
        (beBytes 16 0 ++ (beBytes 4 DB_LOOKUP_KEY_DELIMITER.toNat ++
          (writeUvarint (utf8Encode [98]).length ++ utf8Encode [98])))) :=
  ser_order_preservation_same_length 0 [97] [98] (by decide) (by decide) rfl _ _
    (by rw [ser_eq]; rfl) (by rw [ser_eq]; rfl)

/-- C9 counterexample: the derived equality also compares the delimiter
field, so two keys agreeing on tenant and name but holding different
delimiters are unequal — the unrestricted claim is false. -/
theorem eq_iff_tenant_name_counterexample :
    (⟨0, 'x', []⟩ : DatabaseLookupKey).tenant_id =
        (⟨0, DB_LOOKUP_KEY_DELIMITER, []⟩ : DatabaseLookupKey).tenant_id ∧
      (⟨0, 'x', []⟩ : DatabaseLookupKey).database_name =
        (⟨0, DB_LOOKUP_KEY_DELIMITER, []⟩ : DatabaseLookupKey).database_name ∧
      (⟨0, 'x', []⟩ : DatabaseLookupKey) ≠
        (⟨0, DB_LOOKUP_KEY_DELIMITER, []⟩ : DatabaseLookupKey) := by
  refine ⟨rfl, rfl, ?_⟩
  intro h
  have hdel := congrArg DatabaseLookupKey.delimiter h
  simp only at hdel
  exact absurd hdel (by decide)

/-- C9, amended: restricted to keys whose delimiter field is the reserved
constant (as every key produced by the public construction paths is), two
keys are equal exactly when their tenant ids and names are equal; the
derived equality compares the delimiter field as well, but on such keys it
is never discriminating. -/
theorem eq_iff_tenant_and_name (a b : DatabaseLookupKey)
    (hda : a.delimiter = DB_LOOKUP_KEY_DELIMITER)
    (hdb : b.delimiter = DB_LOOKUP_KEY_DELIMITER) :
    a = b ↔ a.tenant_id = b.tenant_id ∧ a.database_name = b.database_name := by
  constructor
  · intro h
    rw [h]
    exact ⟨rfl, rfl⟩
  · rintro ⟨h1, h2⟩
    obtain ⟨ta, da, na⟩ := a
    obtain ⟨tb, db, nb⟩ := b
    simp only at h1 h2 hda hdb
    subst h1
    subst h2
    rw [hda, hdb]

/-- C9 witness: two concrete constructed keys with the same tenant but
different names are unequal, matching the equality criterion. -/
theorem eq_iff_tenant_and_name_witness :
    DatabaseLookupKey.new 1 [97] = DatabaseLookupKey.new 1 [98] ↔
      (DatabaseLookupKey.new 1 [97]).tenant_id = (DatabaseLookupKey.new 1 [98]).tenant_id ∧
        (DatabaseLookupKey.new 1 [97]).database_name =
          (DatabaseLookupKey.new 1 [98]).database_name :=
  eq_iff_tenant_and_name (DatabaseLookupKey.new 1 [97]) (DatabaseLookupKey.new 1 [98]) rfl rfl
